import Mathlib

/-!
Verification of the books-repo TTS pipeline (audio-generator.ts,
generate-chapter-audio.ts, config-manager.ts, config/providers/*).

Texts are modelled as `List Char` (one element per UTF-16 code unit of the
JavaScript string; all inputs considered here are in the Basic Multilingual
Plane, where code units and characters coincide).  Buffers are modelled as
`List Nat` with one element per byte.
-/

namespace BooksRepo

/-! ## String.trim (JavaScript) -/

/-- Model of JavaScript `String.prototype.trim` on the left: drop leading
whitespace. -/
def trimLeft (l : List Char) : List Char :=
  l.dropWhile Char.isWhitespace

/-- Model of JavaScript `String.prototype.trim` on the right: drop trailing
whitespace. -/
def trimRight (l : List Char) : List Char :=
  (l.reverse.dropWhile Char.isWhitespace).reverse

/-- Model of JavaScript `String.prototype.trim`. -/
def trim (l : List Char) : List Char :=
  trimRight (trimLeft l)

/-! ## splitTextIntoChunks (audio-generator.ts, lines 173-214) -/

/-- The sentence terminators used by `splitTextIntoChunks`
(`const sentenceEnds = [".", "!", "?"]`). -/
def sentenceEnd (c : Char) : Bool :=
  c = '.' || c = '!' || c = '?'

/-- The backward scan
`for (let i = end; i >= searchStart; i--) if (sentenceEnds.includes(text[i]))`
of `splitTextIntoChunks`.  `bound` stands for `5 * searchStart` where
`searchStart = Math.max(start + maxChunkSize * 0.8, start)`; the guard
`i >= searchStart` is the exact rational comparison `5 * i ≥ 5*start + 4*m`.
Returns `bestBreak = i + 1` for the largest qualifying `i`, or `none`. -/
def findBreak (text : List Char) (bound : Nat) : Nat → Option Nat
  | 0 =>
    if 5 * 0 < bound then none
    else if sentenceEnd (text.getD 0 ' ') then some 1 else none
  | j + 1 =>
    if 5 * (j + 1) < bound then none
    else if sentenceEnd (text.getD (j + 1) ' ') then some (j + 2)
    else findBreak text bound j

/-- One iteration of the `while` loop of `splitTextIntoChunks`: the final
value of `end` for the window starting at `start` (sentence-boundary break
if one is found in the last 20% of the window, else the hard boundary). -/
def chunkEnd (text : List Char) (m start : Nat) : Nat :=
  if start + m < text.length then
    match findBreak text (5 * start + 4 * m) (start + m) with
    | some b => if start < b then b else start + m
    | none => start + m
  else start + m

/-- The `while (start < text.length)` loop of `splitTextIntoChunks`.
`fuel` bounds the number of iterations; `text.length` is always enough
because `start` strictly increases (see `chunkEnd_lt`). -/
def chunkLoop (text : List Char) (m : Nat) : Nat → Nat → List (List Char)
  | 0, _ => []
  | fuel + 1, start =>
    if start < text.length ∧ 0 < m then
      let e := chunkEnd text m start
      let chunk := trim ((text.drop start).take (e - start))
      (if 0 < chunk.length then [chunk] else []) ++ chunkLoop text m fuel e
    else []

/-- Model of `splitTextIntoChunks` (audio-generator.ts lines 173-214), with
the chunk size `m` (`this.options.chunk_size`) passed explicitly. -/
def splitTextIntoChunks (text : List Char) (m : Nat) : List (List Char) :=
  if text.length ≤ m then [text]
  else (chunkLoop text m text.length 0).filter (fun c => 0 < c.length)

/-! ### Lemmas about the chunker -/

theorem trim_length_le (l : List Char) : (trim l).length ≤ l.length := by
  have h1 : (trimLeft l).length ≤ l.length :=
    (List.dropWhile_sublist Char.isWhitespace).length_le
  have h2 : (trimRight (trimLeft l)).length ≤ (trimLeft l).length := by
    unfold trimRight
    rw [List.length_reverse]
    calc ((trimLeft l).reverse.dropWhile Char.isWhitespace).length
        ≤ (trimLeft l).reverse.length :=
          (List.dropWhile_sublist Char.isWhitespace).length_le
      _ = (trimLeft l).length := List.length_reverse _
  exact le_trans h2 h1

theorem findBreak_le (text : List Char) (bound : Nat) :
    ∀ i b, findBreak text bound i = some b → b ≤ i + 1 := by
  intro i
  induction i with
  | zero =>
    intro b h
    unfold findBreak at h
    split at h
    · exact absurd h (by simp)
    · split at h
      · simp at h; omega
      · exact absurd h (by simp)
  | succ j ih =>
    intro b h
    unfold findBreak at h
    split at h
    · exact absurd h (by simp)
    · split at h
      · simp at h; omega
      · exact Nat.le_trans (ih b h) (by omega)

theorem chunkEnd_lt (text : List Char) (m start : Nat) (hm : 0 < m) :
    start < chunkEnd text m start := by
  unfold chunkEnd
  split
  · split
    · split <;> omega
    · omega
  · omega

theorem chunkEnd_le (text : List Char) (m start : Nat) :
    chunkEnd text m start ≤ start + m + 1 := by
  unfold chunkEnd
  split
  · split
    · rename_i b hb
      have := findBreak_le text (5 * start + 4 * m) (start + m) b hb
      split <;> omega
    · omega
  · omega

theorem chunkLoop_stop (text : List Char) (m fuel start : Nat)
    (h : ¬ start < text.length) : chunkLoop text m fuel start = [] := by
  cases fuel with
  | zero => rfl
  | succ f =>
    unfold chunkLoop
    rw [if_neg]
    intro hc
    exact h hc.1

theorem chunkLoop_spec (text : List Char) (m : Nat) (hm : 0 < m) :
    ∀ fuel start, start < text.length → text.length ≤ start + fuel →
    ∃ pieces : List (List Char),
      pieces.flatten = text.drop start ∧
      chunkLoop text m fuel start =
        (pieces.map trim).filter (fun c => 0 < c.length) ∧
      ∀ p ∈ pieces, 0 < p.length ∧ p.length ≤ m + 1 := by
  intro fuel
  induction fuel with
  | zero => intro start h1 h2; omega
  | succ f ih =>
    intro start h1 h2
    have hcond : start < text.length ∧ 0 < m := ⟨h1, hm⟩
    have he1 : start < chunkEnd text m start := chunkEnd_lt text m start hm
    have he2 : chunkEnd text m start ≤ start + m + 1 := chunkEnd_le text m start
    set e := chunkEnd text m start with hedef
    have hloop : chunkLoop text m (f + 1) start =
        (if 0 < (trim ((text.drop start).take (e - start))).length
          then [trim ((text.drop start).take (e - start))] else []) ++
          chunkLoop text m f e := by
      conv_lhs => unfold chunkLoop
      rw [if_pos hcond]
    have hpiece_len : ((text.drop start).take (e - start)).length
        = min (e - start) (text.length - start) := by
      rw [List.length_take, List.length_drop]
    have hjoin_piece : (text.drop start).take (e - start) ++ text.drop e
        = text.drop start := by
      have := List.take_append_drop (e - start) (text.drop start)
      rwa [List.drop_drop, Nat.add_sub_cancel' (Nat.le_of_lt he1)] at this
    by_cases hcase : e < text.length
    · obtain ⟨pieces, hj, hl, hp⟩ := ih e hcase (by omega)
      refine ⟨(text.drop start).take (e - start) :: pieces, ?_, ?_, ?_⟩
      · rw [List.flatten_cons, hj, hjoin_piece]
      · rw [hloop, hl, List.map_cons, List.filter_cons]
        split
        · rename_i hkeep
          rw [if_pos (by simpa using hkeep)]
          rfl
        · rename_i hkeep
          rw [if_neg (by simpa using hkeep)]
          rfl
      · intro p hp'
        rcases List.mem_cons.mp hp' with h | h
        · subst h
          constructor
          · rw [hpiece_len]; omega
          · rw [hpiece_len]; omega
        · exact hp p h
    · refine ⟨[(text.drop start).take (e - start)], ?_, ?_, ?_⟩
      · have : (text.drop start).length ≤ e - start := by
          rw [List.length_drop]; omega
        rw [List.flatten_cons, List.flatten_nil, List.append_nil,
          List.take_of_length_le this]
      · rw [hloop, chunkLoop_stop text m f e hcase, List.map_cons,
          List.map_nil, List.filter_cons]
        split
        · rename_i hkeep
          rw [if_pos (by simpa using hkeep)]
          rfl
        · rename_i hkeep
          rw [if_neg (by simpa using hkeep)]
          rfl
      · intro p hp'
        rcases List.mem_cons.mp hp' with h | h
        · subst h
          constructor
          · rw [hpiece_len]; omega
          · rw [hpiece_len]; omega
        · simp at h

/-! ### Claims C1 and C8 -/

/-- C1 (amended): for `m > 0` and `m < t.length`, `splitTextIntoChunks`
cuts `t` into consecutive nonempty pieces of length at most `m + 1`
(one more than the configured maximum, because the sentence-boundary scan
starts one position past the window), returns exactly the trims of those
pieces with empty trims dropped, and every returned chunk is nonempty of
length at most `m + 1`. -/
theorem splitTextIntoChunks_spec (t : List Char) (m : Nat) (hm : 0 < m)
    (hlt : m < t.length) :
    ∃ pieces : List (List Char),
      pieces.flatten = t ∧
      splitTextIntoChunks t m =
        (pieces.map trim).filter (fun c => 0 < c.length) ∧
      (∀ p ∈ pieces, 0 < p.length ∧ p.length ≤ m + 1) ∧
      ∀ c ∈ splitTextIntoChunks t m, 0 < c.length ∧ c.length ≤ m + 1 := by
  obtain ⟨pieces, hj, hl, hp⟩ :=
    chunkLoop_spec t m hm t.length 0 (by omega) (by omega)
  have hsplit : splitTextIntoChunks t m =
      (pieces.map trim).filter (fun c => 0 < c.length) := by
    unfold splitTextIntoChunks
    rw [if_neg (by omega), hl, List.filter_filter]
    congr 1
    funext c
    simp
  refine ⟨pieces, by simpa using hj, hsplit, hp, ?_⟩
  intro c hc
  rw [hsplit] at hc
  have hmem := List.of_mem_filter hc
  have hc' := List.mem_of_mem_filter hc
  obtain ⟨p, hpmem, hpeq⟩ := List.mem_map.mp hc'
  constructor
  · simpa using hmem
  · rw [← hpeq]
    exact le_trans (trim_length_le p) (hp p hpmem).2

/-- C1 witness: the amended specification evaluated at the concrete input
`"ab.de"` with maximum chunk size 2. -/
theorem splitTextIntoChunks_spec_witness :
    ∃ pieces : List (List Char),
      pieces.flatten = "ab.de".toList ∧
      splitTextIntoChunks ("ab.de".toList) 2 =
        (pieces.map trim).filter (fun c => 0 < c.length) ∧
      (∀ p ∈ pieces, 0 < p.length ∧ p.length ≤ 2 + 1) ∧
      ∀ c ∈ splitTextIntoChunks ("ab.de".toList) 2,
        0 < c.length ∧ c.length ≤ 2 + 1 :=
  splitTextIntoChunks_spec ("ab.de".toList) 2 (by decide) (by decide)

/-- C1 counterexample: on input `"ab.de"` with maximum chunk size 2 the
code produces the chunk `"ab."` of length 3, so the claim that every chunk
has length at most `m` is false (the sentence-boundary scan starts at index
`start + m`, one past the window, so a terminator there yields a chunk of
`m + 1` characters). -/
theorem splitTextIntoChunks_chunk_can_exceed_max :
    ¬ (∀ c ∈ splitTextIntoChunks ("ab.de".toList) 2, c.length ≤ 2) := by
  decide

/-- C8: an input whose length is at most the configured chunk size — the
empty string and whitespace-only strings included — is returned as the
single chunk `[t]`, verbatim: no trimming and no empty-chunk filtering
happens on this path. -/
theorem splitTextIntoChunks_short_input (t : List Char) (m : Nat)
    (h : t.length ≤ m) : splitTextIntoChunks t m = [t] := by
  unfold splitTextIntoChunks
  rw [if_pos h]

/-- C8 witness: the empty string and a whitespace-only string are returned
verbatim as a single (possibly empty, untrimmed) chunk. -/
theorem splitTextIntoChunks_short_input_witness :
    splitTextIntoChunks ("".toList) 5 = ["".toList] ∧
    splitTextIntoChunks ("   ".toList) 5 = ["   ".toList] :=
  ⟨splitTextIntoChunks_short_input ("".toList) 5 (by decide),
    splitTextIntoChunks_short_input ("   ".toList) 5 (by decide)⟩

/-! ## normalizeTextForTTS (audio-generator.ts, lines 141-171)

Each `String.prototype.replace` call with a global regex is modelled by a
left-to-right scanner that reproduces that regex's leftmost,
non-overlapping match semantics (greedy/lazy behaviour hand-compiled per
pattern).  Every scanner takes fuel; the wrappers pass the input length,
which suffices because each step consumes at least one character, and a
scanner that runs out of fuel returns its remaining input unchanged. -/

/-- JavaScript line terminators as they matter here: `.` in a JS regex
matches neither `\n` nor `\r`, and with the `m` flag `^` matches right
after either. -/
def isNl (c : Char) : Bool := c = '\n' || c = '\r'

/-- The character class `[-*+]` of the list-marker regex. -/
def bulletChar (c : Char) : Bool := c = '-' || c = '*' || c = '+'

/-- `normalized.replace(/\[\d+\]/g, "")` — remove bracketed numeric
footnote markers. -/
def removeBracketFootnotesF : Nat → List Char → List Char
  | 0, l => l
  | _ + 1, [] => []
  | fuel + 1, c :: cs =>
    if c = '[' then
      match cs.span Char.isDigit with
      | (_ :: _, ']' :: rest) => removeBracketFootnotesF fuel rest
      | _ => c :: removeBracketFootnotesF fuel cs
    else c :: removeBracketFootnotesF fuel cs

/-- `normalized.replace(/\(\d+\)/g, "")` — remove parenthesised numeric
footnote markers. -/
def removeParenFootnotesF : Nat → List Char → List Char
  | 0, l => l
  | _ + 1, [] => []
  | fuel + 1, c :: cs =>
    if c = '(' then
      match cs.span Char.isDigit with
      | (_ :: _, ')' :: rest) => removeParenFootnotesF fuel rest
      | _ => c :: removeParenFootnotesF fuel cs
    else c :: removeParenFootnotesF fuel cs

/-- `normalized.replace(/\s+/g, " ")` — collapse every maximal whitespace
run to a single space.  The flag records whether the scanner is inside a
run whose replacement space was already emitted. -/
def collapseGo : Bool → List Char → List Char
  | _, [] => []
  | inRun, c :: cs =>
    if c.isWhitespace then
      if inRun then collapseGo true cs else ' ' :: collapseGo true cs
    else c :: collapseGo false cs

/-- Whitespace collapsing, `normalized.replace(/\s+/g, " ")`. -/
def collapseWhitespace (l : List Char) : List Char := collapseGo false l

/-- Scan for the closing `**` of `/\*\*(.*?)\*\*/` : returns the (lazy,
hence shortest) inner text and the remainder, or `none` when a line
terminator (which `.` cannot match) or the end of input intervenes. -/
def splitAtDoubleStar : List Char → Option (List Char × List Char)
  | [] => none
  | c :: rest =>
    if c = '*' ∧ rest.head? = some '*' then some ([], rest.tail)
    else if isNl c then none
    else (splitAtDoubleStar rest).map (fun p => (c :: p.1, p.2))

/-- `.replace(/\*\*(.*?)\*\*/g, "$1")` — remove bold emphasis markers. -/
def removeBoldF : Nat → List Char → List Char
  | 0, l => l
  | _ + 1, [] => []
  | fuel + 1, c :: cs =>
    if c = '*' ∧ cs.head? = some '*' then
      match splitAtDoubleStar cs.tail with
      | some (inner, rest2) => inner ++ removeBoldF fuel rest2
      | none => c :: removeBoldF fuel cs
    else c :: removeBoldF fuel cs

/-- Scan for the closing `*` of `/\*(.*?)\*/`. -/
def splitAtStar : List Char → Option (List Char × List Char)
  | [] => none
  | c :: rest =>
    if c = '*' then some ([], rest)
    else if isNl c then none
    else (splitAtStar rest).map (fun p => (c :: p.1, p.2))

/-- `.replace(/\*(.*?)\*/g, "$1")` — remove italic emphasis markers. -/
def removeItalicF : Nat → List Char → List Char
  | 0, l => l
  | _ + 1, [] => []
  | fuel + 1, c :: cs =>
    if c = '*' then
      match splitAtStar cs with
      | some (inner, rest2) => inner ++ removeItalicF fuel rest2
      | none => c :: removeItalicF fuel cs
    else c :: removeItalicF fuel cs

/-- `.replace(/\[([^\]]+)\]\([^)]+\)/g, "$1")` — markdown links: keep the
anchor text, drop the URL. -/
def removeLinksF : Nat → List Char → List Char
  | 0, l => l
  | _ + 1, [] => []
  | fuel + 1, c :: cs =>
    if c = '[' then
      match cs.span (fun d => !(d = ']')) with
      | (t :: ts, ']' :: '(' :: r2) =>
        match r2.span (fun d => !(d = ')')) with
        | (_ :: _, ')' :: r4) => (t :: ts) ++ removeLinksF fuel r4
        | _ => c :: removeLinksF fuel cs
      | _ => c :: removeLinksF fuel cs
    else c :: removeLinksF fuel cs

/-- Attempt the match of `/^\s*[-*+]\s+/` at a line-start position:
returns whether the last consumed character was a line terminator
(which decides whether the continuation is again at a line start)
and the remainder. -/
def tryListMarker (l : List Char) : Option (Bool × List Char) :=
  match l.span Char.isWhitespace with
  | (_, b :: r2) =>
    if bulletChar b then
      match r2.span Char.isWhitespace with
      | (w :: ws2, r3) => some (isNl ((w :: ws2).getLastD ' '), r3)
      | _ => none
    else none
  | _ => none

/-- `.replace(/^\s*[-*+]\s+/gm, "")` — remove list-item markers.  The
Boolean argument tracks whether the current position is a `^` position
(start of string or right after a line terminator). -/
def removeListMarkersF : Nat → Bool → List Char → List Char
  | 0, _, l => l
  | _ + 1, _, [] => []
  | fuel + 1, lineStart, c :: cs =>
    match (if lineStart then tryListMarker (c :: cs) else none) with
    | some (lastNl, rest) => removeListMarkersF fuel lastNl rest
    | none => c :: removeListMarkersF fuel (isNl c) cs

/-- `.replace(/\n{3,}/g, "\n\n")` — collapse runs of three or more
newlines to exactly two. -/
def collapseNewlinesF : Nat → List Char → List Char
  | 0, l => l
  | _ + 1, [] => []
  | fuel + 1, c :: cs =>
    if c = '\n' then
      match cs.span (fun d => d = '\n') with
      | (nls, rest) =>
        if 2 ≤ nls.length then '\n' :: '\n' :: collapseNewlinesF fuel rest
        else c :: (nls ++ collapseNewlinesF fuel rest)
    else c :: collapseNewlinesF fuel cs

/-- `.replace(/([.!?])\s*\n\s*/g, "$1 ")` — join a sentence terminator
followed by a line break into terminator-plus-space.  After backtracking
of the greedy `\s*`, the regex matches exactly when the whitespace run
after the terminator contains a `\n`, and then consumes the whole run. -/
def joinSentenceBreaksF : Nat → List Char → List Char
  | 0, l => l
  | _ + 1, [] => []
  | fuel + 1, c :: cs =>
    if sentenceEnd c then
      match cs.span Char.isWhitespace with
      | (run, rest) =>
        if '\n' ∈ run then c :: ' ' :: joinSentenceBreaksF fuel rest
        else c :: joinSentenceBreaksF fuel cs
    else c :: joinSentenceBreaksF fuel cs

/-- `.replace(/\n\s*\n/g, ". ")` — convert paragraph breaks to
full-stop-plus-space.  With the greedy `\s*`, a match starts at a `\n`
whose following whitespace run contains another `\n`, and extends to the
last `\n` of that run; scanning continues on the run's remaining tail. -/
def paragraphBreaksF : Nat → List Char → List Char
  | 0, l => l
  | _ + 1, [] => []
  | fuel + 1, c :: cs =>
    if c = '\n' then
      match cs.span Char.isWhitespace with
      | (run, rest) =>
        if '\n' ∈ run then
          '.' :: ' ' ::
            paragraphBreaksF fuel
              ((run.reverse.takeWhile (fun d => !(d = '\n'))).reverse ++ rest)
        else c :: paragraphBreaksF fuel cs
    else c :: paragraphBreaksF fuel cs

/-- The `text_processing` block of `GlobalTTSSettings` (config/types.ts),
restricted to the flags `normalizeTextForTTS` reads. -/
structure TextProcessingSettings where
  clean_markdown : Bool
  remove_footnotes : Bool
  normalize_whitespace : Bool

/-- The `text_processing` values of `ConfigManager.globalSettings`
(config-manager.ts): `clean_markdown: true, remove_footnotes: true,
normalize_whitespace: true`. -/
def globalTextProcessing : TextProcessingSettings :=
  { clean_markdown := true, remove_footnotes := true,
    normalize_whitespace := true }

/-- Wrapper passing sufficient fuel. -/
def removeBracketFootnotes (l : List Char) : List Char :=
  removeBracketFootnotesF l.length l

/-- Wrapper passing sufficient fuel. -/
def removeParenFootnotes (l : List Char) : List Char :=
  removeParenFootnotesF l.length l

/-- Wrapper passing sufficient fuel. -/
def removeBold (l : List Char) : List Char := removeBoldF l.length l

/-- Wrapper passing sufficient fuel. -/
def removeItalic (l : List Char) : List Char := removeItalicF l.length l

/-- Wrapper passing sufficient fuel. -/
def removeLinks (l : List Char) : List Char := removeLinksF l.length l

/-- Wrapper passing sufficient fuel; scanning starts at a `^` position. -/
def removeListMarkers (l : List Char) : List Char :=
  removeListMarkersF l.length true l

/-- Wrapper passing sufficient fuel. -/
def collapseNewlines (l : List Char) : List Char :=
  collapseNewlinesF l.length l

/-- Wrapper passing sufficient fuel. -/
def joinSentenceBreaks (l : List Char) : List Char :=
  joinSentenceBreaksF l.length l

/-- Wrapper passing sufficient fuel. -/
def paragraphBreaks (l : List Char) : List Char :=
  paragraphBreaksF l.length l

/-- Model of `normalizeTextForTTS` (audio-generator.ts lines 141-171),
with the global text-processing settings passed explicitly. -/
def normalizeTextForTTS (s : TextProcessingSettings) (text : List Char) :
    List Char :=
  if !s.clean_markdown then text
  else
    let n1 := if s.remove_footnotes
      then removeParenFootnotes (removeBracketFootnotes text) else text
    let n2 := if s.normalize_whitespace then collapseWhitespace n1 else n1
    trim (paragraphBreaks (joinSentenceBreaks (collapseNewlines
      (removeListMarkers (removeLinks (removeItalic (removeBold n2)))))))

/-- `normalizeTextForTTS` as the repository actually runs it: with
`ConfigManager.getGlobalSettings().text_processing`. -/
def normalizeG (text : List Char) : List Char :=
  normalizeTextForTTS globalTextProcessing text

/-! ### Scanner no-op lemmas: each replacement pass leaves texts without
its trigger character unchanged. -/

theorem removeBracketFootnotesF_no_op {l : List Char} (h : '[' ∉ l) :
    ∀ fuel, removeBracketFootnotesF fuel l = l := by
  induction l with
  | nil => intro fuel; cases fuel <;> rfl
  | cons c cs ih =>
    intro fuel
    cases fuel with
    | zero => rfl
    | succ f =>
      have hc : ¬ c = '[' := fun hc => h (hc ▸ List.mem_cons_self c cs)
      show removeBracketFootnotesF (f + 1) (c :: cs) = c :: cs
      unfold removeBracketFootnotesF
      rw [if_neg hc, ih (fun hm => h (List.mem_cons_of_mem c hm)) f]

theorem removeParenFootnotesF_no_op {l : List Char} (h : '(' ∉ l) :
    ∀ fuel, removeParenFootnotesF fuel l = l := by
  induction l with
  | nil => intro fuel; cases fuel <;> rfl
  | cons c cs ih =>
    intro fuel
    cases fuel with
    | zero => rfl
    | succ f =>
      have hc : ¬ c = '(' := fun hc => h (hc ▸ List.mem_cons_self c cs)
      unfold removeParenFootnotesF
      rw [if_neg hc, ih (fun hm => h (List.mem_cons_of_mem c hm)) f]

theorem removeBoldF_no_op {l : List Char} (h : '*' ∉ l) :
    ∀ fuel, removeBoldF fuel l = l := by
  induction l with
  | nil => intro fuel; cases fuel <;> rfl
  | cons c cs ih =>
    intro fuel
    cases fuel with
    | zero => rfl
    | succ f =>
      have hc : ¬ (c = '*' ∧ cs.head? = some '*') :=
        fun hc => h (hc.1 ▸ List.mem_cons_self c cs)
      unfold removeBoldF
      rw [if_neg hc, ih (fun hm => h (List.mem_cons_of_mem c hm)) f]

theorem removeItalicF_no_op {l : List Char} (h : '*' ∉ l) :
    ∀ fuel, removeItalicF fuel l = l := by
  induction l with
  | nil => intro fuel; cases fuel <;> rfl
  | cons c cs ih =>
    intro fuel
    cases fuel with
    | zero => rfl
    | succ f =>
      have hc : ¬ c = '*' := fun hc => h (hc ▸ List.mem_cons_self c cs)
      unfold removeItalicF
      rw [if_neg hc, ih (fun hm => h (List.mem_cons_of_mem c hm)) f]

theorem removeLinksF_no_op {l : List Char} (h : '[' ∉ l) :
    ∀ fuel, removeLinksF fuel l = l := by
  induction l with
  | nil => intro fuel; cases fuel <;> rfl
  | cons c cs ih =>
    intro fuel
    cases fuel with
    | zero => rfl
    | succ f =>
      have hc : ¬ c = '[' := fun hc => h (hc ▸ List.mem_cons_self c cs)
      unfold removeLinksF
      rw [if_neg hc, ih (fun hm => h (List.mem_cons_of_mem c hm)) f]

theorem tryListMarker_none {l : List Char}
    (h : ∀ c ∈ l, bulletChar c = false) : tryListMarker l = none := by
  unfold tryListMarker
  rw [List.span_eq_take_drop]
  rcases hd : l.dropWhile Char.isWhitespace with _ | ⟨b, r2⟩
  · rfl
  · have hb : b ∈ l := by
      have : b ∈ l.dropWhile Char.isWhitespace := by rw [hd]; simp
      exact (List.dropWhile_sublist Char.isWhitespace).mem this
    simp only
    rw [if_neg]
    intro hbul
    rw [h b hb] at hbul
    exact Bool.false_ne_true hbul

theorem removeListMarkersF_no_op {l : List Char}
    (h : ∀ c ∈ l, bulletChar c = false) :
    ∀ fuel lineStart, removeListMarkersF fuel lineStart l = l := by
  induction l with
  | nil => intro fuel ls; cases fuel <;> rfl
  | cons c cs ih =>
    intro fuel ls
    cases fuel with
    | zero => rfl
    | succ f =>
      have htry : (if ls then tryListMarker (c :: cs) else none) = none := by
        cases ls
        · rfl
        · simpa using tryListMarker_none h
      unfold removeListMarkersF
      rw [htry]
      simp only
      rw [ih (fun d hd => h d (List.mem_cons_of_mem c hd)) f (isNl c)]

theorem collapseNewlinesF_no_op {l : List Char} (h : '\n' ∉ l) :
    ∀ fuel, collapseNewlinesF fuel l = l := by
  induction l with
  | nil => intro fuel; cases fuel <;> rfl
  | cons c cs ih =>
    intro fuel
    cases fuel with
    | zero => rfl
    | succ f =>
      have hc : ¬ c = '\n' := fun hc => h (hc ▸ List.mem_cons_self c cs)
      unfold collapseNewlinesF
      rw [if_neg hc, ih (fun hm => h (List.mem_cons_of_mem c hm)) f]

theorem joinSentenceBreaksF_no_op {l : List Char} (h : '\n' ∉ l) :
    ∀ fuel, joinSentenceBreaksF fuel l = l := by
  induction l with
  | nil => intro fuel; cases fuel <;> rfl
  | cons c cs ih =>
    intro fuel
    cases fuel with
    | zero => rfl
    | succ f =>
      have hcs : '\n' ∉ cs := fun hm => h (List.mem_cons_of_mem c hm)
      have hrun : '\n' ∉ cs.takeWhile Char.isWhitespace := fun hm =>
        hcs ((List.takeWhile_sublist Char.isWhitespace).mem hm)
      unfold joinSentenceBreaksF
      rw [List.span_eq_take_drop]
      by_cases hse : sentenceEnd c = true
      · rw [if_pos hse]
        simp only
        rw [if_neg hrun, ih hcs f]
      · rw [if_neg hse, ih hcs f]

theorem paragraphBreaksF_no_op {l : List Char} (h : '\n' ∉ l) :
    ∀ fuel, paragraphBreaksF fuel l = l := by
  induction l with
  | nil => intro fuel; cases fuel <;> rfl
  | cons c cs ih =>
    intro fuel
    cases fuel with
    | zero => rfl
    | succ f =>
      have hc : ¬ c = '\n' := fun hc => h (hc ▸ List.mem_cons_self c cs)
      unfold paragraphBreaksF
      rw [if_neg hc, ih (fun hm => h (List.mem_cons_of_mem c hm)) f]

/-! ### Structure of whitespace-collapsed text -/

/-- Every whitespace character of the list is a plain space. -/
def allWsSpace (l : List Char) : Prop :=
  ∀ c ∈ l, c.isWhitespace = true → c = ' '

/-- No two adjacent whitespace characters. -/
def noAdjWs (a b : Char) : Prop :=
  ¬ (a.isWhitespace = true ∧ b.isWhitespace = true)

/-- The head, when present, is not whitespace. -/
def headNotWs (l : List Char) : Prop :=
  ∀ c ∈ l.head?, c.isWhitespace = false

theorem collapseGo_mem {c : Char} :
    ∀ {l : List Char} {flag : Bool}, c ∈ collapseGo flag l →
      c = ' ' ∨ c ∈ l := by
  intro l
  induction l with
  | nil => intro flag h; simp [collapseGo] at h
  | cons d ds ih =>
    intro flag h
    unfold collapseGo at h
    split at h
    · split at h
      · rcases ih h with h' | h'
        · exact Or.inl h'
        · exact Or.inr (List.mem_cons_of_mem d h')
      · rcases List.mem_cons.mp h with h' | h'
        · exact Or.inl h'
        · rcases ih h' with h'' | h''
          · exact Or.inl h''
          · exact Or.inr (List.mem_cons_of_mem d h'')
    · rcases List.mem_cons.mp h with h' | h'
      · exact Or.inr (h' ▸ List.mem_cons_self d ds)
      · rcases ih h' with h'' | h''
        · exact Or.inl h''
        · exact Or.inr (List.mem_cons_of_mem d h'')

theorem collapseGo_allWsSpace :
    ∀ (l : List Char) (flag : Bool), allWsSpace (collapseGo flag l) := by
  intro l
  induction l with
  | nil => intro flag c hc; simp [collapseGo] at hc
  | cons d ds ih =>
    intro flag c hc hws
    unfold collapseGo at hc
    split at hc
    · split at hc
      · exact ih true c hc hws
      · rcases List.mem_cons.mp hc with h' | h'
        · exact h'
        · exact ih true c h' hws
    · rcases List.mem_cons.mp hc with h' | h'
      · rename_i hd
        subst h'
        exact absurd hws (by simp [hd])

      · exact ih false c h' hws

theorem collapseGo_chain' :
    ∀ (l : List Char) (flag : Bool),
      List.Chain' noAdjWs (collapseGo flag l) ∧
        (flag = true → headNotWs (collapseGo flag l)) := by
  intro l
  induction l with
  | nil =>
    intro flag
    exact ⟨List.chain'_nil, fun _ => by intro c hc; simp [collapseGo] at hc⟩
  | cons d ds ih =>
    intro flag
    unfold collapseGo
    by_cases hd : d.isWhitespace = true
    · rw [if_pos hd]
      cases flag with
      | true =>
        rw [if_pos rfl]
        exact ⟨(ih true).1, fun _ => (ih true).2 rfl⟩
      | false =>
        rw [if_neg Bool.false_ne_true]
        constructor
        · rw [List.chain'_cons']
          refine ⟨?_, (ih true).1⟩
          intro b hb
          have := (ih true).2 rfl b hb
          intro hcontra
          rw [this] at hcontra
          exact Bool.false_ne_true hcontra.2
        · intro h; cases h
    · rw [if_neg hd]
      constructor
      · rw [List.chain'_cons']
        refine ⟨?_, (ih false).1⟩
        intro b hb
        intro hcontra
        exact hd hcontra.1
      · intro _
        intro c hc
        simp at hc
        rw [← hc]
        simpa using hd

theorem collapseGo_fix :
    ∀ l : List Char, allWsSpace l → List.Chain' noAdjWs l →
      collapseGo false l = l ∧ (headNotWs l → collapseGo true l = l) := by
  intro l
  induction l with
  | nil => intro _ _; exact ⟨rfl, fun _ => rfl⟩
  | cons d ds ih =>
    intro ha hc
    have ha' : allWsSpace ds := fun c hc' => ha c (List.mem_cons_of_mem d hc')
    have hc' : List.Chain' noAdjWs ds := (List.chain'_cons'.mp hc).2
    have hhead : ∀ b ∈ ds.head?, noAdjWs d b := (List.chain'_cons'.mp hc).1
    constructor
    · unfold collapseGo
      by_cases hd : d.isWhitespace = true
      · rw [if_pos hd]
        have hds : headNotWs ds := by
          intro b hb
          have := hhead b hb
          unfold noAdjWs at this
          by_contra hbws
          exact this ⟨hd, by simpa using hbws⟩
        rw [if_neg Bool.false_ne_true, (ih ha' hc').2 hds]
        have : d = ' ' := ha d (List.mem_cons_self d ds) hd
        rw [this]
      · rw [if_neg hd, (ih ha' hc').1]
    · intro hh
      unfold collapseGo
      have hd : ¬ d.isWhitespace = true := by
        have := hh d (by simp)
        simp [this]
      rw [if_neg hd, (ih ha' hc').1]

/-! ### Trim lemmas -/

theorem trimLeft_suffix (l : List Char) : List.IsSuffix (trimLeft l) l :=
  List.dropWhile_suffix Char.isWhitespace

theorem trimRight_isPrefix (l : List Char) : List.IsPrefix (trimRight l) l := by
  apply List.reverse_suffix.mp
  unfold trimRight
  rw [List.reverse_reverse]
  exact List.dropWhile_suffix Char.isWhitespace

theorem trim_isInfixOf (l : List Char) : List.IsInfix (trim l) l :=
  (trimRight_isPrefix (trimLeft l)).isInfix.trans (trimLeft_suffix l).isInfix

theorem trimLeft_idem (l : List Char) : trimLeft (trimLeft l) = trimLeft l :=
  List.dropWhile_idempotent Char.isWhitespace l

theorem trimRight_idem (l : List Char) :
    trimRight (trimRight l) = trimRight l := by
  unfold trimRight
  rw [List.reverse_reverse, List.dropWhile_idempotent]

theorem trimLeft_trimRight_of_fix {l : List Char} (h : trimLeft l = l) :
    trimLeft (trimRight l) = trimRight l := by
  rcases hz : trimRight l with _ | ⟨c, w⟩
  · rfl
  · obtain ⟨t, ht⟩ := trimRight_isPrefix l
    rw [hz] at ht
    have hcw : ¬ Char.isWhitespace c = true := by
      intro hws
      rw [← ht] at h
      unfold trimLeft at h
      rw [List.cons_append, List.dropWhile_cons_of_pos hws] at h
      have hlen := congrArg List.length h
      rw [List.length_cons] at hlen
      have hle := (List.dropWhile_sublist (l := w ++ t)
        Char.isWhitespace).length_le
      omega
    unfold trimLeft
    rw [List.dropWhile_cons_of_neg hcw]

theorem trim_idem (l : List Char) : trim (trim l) = trim l := by
  unfold trim
  rw [trimLeft_trimRight_of_fix (trimLeft_idem l), trimRight_idem]

/-! ### Claims C4 and C9 -/

/-- The trigger characters of the markdown-cleanup regexes: emphasis
markers, footnote/link openers and list bullets. -/
def specialChar (c : Char) : Bool :=
  c = '*' || c = '[' || c = '(' || c = '-' || c = '+'

theorem normalizeG_plain {t : List Char}
    (h : ∀ c ∈ t, specialChar c = false) :
    normalizeG t = trim (collapseWhitespace t) := by
  have hget : ∀ c ∈ t, ¬ c = '*' ∧ ¬ c = '[' ∧ ¬ c = '(' ∧
      bulletChar c = false := by
    intro c hc
    have := h c hc
    unfold specialChar at this
    unfold bulletChar
    simp only [Bool.or_eq_false_iff] at this ⊢
    simp only [decide_eq_false_iff_not] at this ⊢
    tauto
  have hbr : '[' ∉ t := fun hm => ((hget '[' hm).2.1) rfl
  have hpar : '(' ∉ t := fun hm => ((hget '(' hm).2.2.1) rfl
  set u := collapseWhitespace t with hu
  have humem : ∀ c ∈ u, c = ' ' ∨ c ∈ t := fun c hc => collapseGo_mem hc
  have huws : allWsSpace u := collapseGo_allWsSpace t false
  have hustar : '*' ∉ u := by
    intro hm
    rcases humem '*' hm with h' | h'
    · exact absurd h' (by decide)
    · exact (hget '*' h').1 rfl
  have hubr : '[' ∉ u := by
    intro hm
    rcases humem '[' hm with h' | h'
    · exact absurd h' (by decide)
    · exact hbr h'
  have hubul : ∀ c ∈ u, bulletChar c = false := by
    intro c hc
    rcases humem c hc with h' | h'
    · rw [h']; rfl
    · exact (hget c h').2.2.2
  have hunl : '\n' ∉ u := by
    intro hm
    have := huws '\n' hm (by decide)
    exact absurd this (by decide)
  show normalizeTextForTTS globalTextProcessing t = trim u
  unfold normalizeTextForTTS globalTextProcessing
  simp only [Bool.not_true, Bool.false_eq_true, if_false, if_true]
  rw [removeBracketFootnotes, removeBracketFootnotesF_no_op hbr,
    removeParenFootnotes, removeParenFootnotesF_no_op hpar]
  rw [← hu]
  rw [removeBold, removeBoldF_no_op hustar,
    removeItalic, removeItalicF_no_op hustar,
    removeLinks, removeLinksF_no_op hubr,
    removeListMarkers, removeListMarkersF_no_op hubul,
    collapseNewlines, collapseNewlinesF_no_op hunl,
    joinSentenceBreaks, joinSentenceBreaksF_no_op hunl,
    paragraphBreaks, paragraphBreaksF_no_op hunl]

/-- C4 counterexample: the normalizer is not idempotent.  On
`"a * b * c"` the italic-marker removal (which runs after whitespace
collapsing) leaves the double spaces `"a  b  c"`, which a second
application collapses to `"a b c"`. -/
theorem normalizeG_not_idempotent :
    normalizeG (normalizeG ("a * b * c".toList)) ≠
      normalizeG ("a * b * c".toList) := by
  decide

/-- C4 (amended): under the repository's global text-processing settings,
`normalizeTextForTTS` is idempotent on every text free of the
markdown-cleanup trigger characters `*`, `[`, `(`, `-`, `+`; on texts
containing them a second application can differ (see
`normalizeG_not_idempotent`). -/
theorem normalizeG_idem_plain {t : List Char}
    (h : ∀ c ∈ t, specialChar c = false) :
    normalizeG (normalizeG t) = normalizeG t := by
  rw [normalizeG_plain h]
  have hmemr : ∀ c ∈ trim (collapseWhitespace t), c = ' ' ∨ c ∈ t := by
    intro c hc
    exact collapseGo_mem ((trim_isInfixOf (collapseWhitespace t)).mem hc)
  have h2 : ∀ c ∈ trim (collapseWhitespace t), specialChar c = false := by
    intro c hc
    rcases hmemr c hc with h' | h'
    · rw [h']; rfl
    · exact h c h'
  rw [normalizeG_plain h2]
  have ha : allWsSpace (trim (collapseWhitespace t)) := by
    intro c hc hws
    exact collapseGo_allWsSpace t false c
      ((trim_isInfixOf (collapseWhitespace t)).mem hc) hws
  have hc : List.Chain' noAdjWs (trim (collapseWhitespace t)) := by
    have h1 : List.Chain' noAdjWs (trimLeft (collapseWhitespace t)) :=
      ((collapseGo_chain' t false).1).suffix
        (trimLeft_suffix (collapseWhitespace t))
    obtain ⟨tl, htl⟩ := trimRight_isPrefix (trimLeft (collapseWhitespace t))
    rw [← htl] at h1
    exact (List.chain'_append.mp h1).1
  have hfix : collapseWhitespace (trim (collapseWhitespace t)) =
      trim (collapseWhitespace t) :=
    (collapseGo_fix (trim (collapseWhitespace t)) ha hc).1
  rw [hfix, trim_idem]

/-- C4 witness: idempotence of the normalizer on the plain text
`"hello  world. ok"`. -/
theorem normalizeG_idem_plain_witness :
    normalizeG (normalizeG ("hello  world. ok".toList)) =
      normalizeG ("hello  world. ok".toList) :=
  normalizeG_idem_plain (by decide)

/-- C9: when `clean_markdown` is false, `normalizeTextForTTS` returns its
input unchanged regardless of the `remove_footnotes` and
`normalize_whitespace` settings (the function returns before any
normalization step runs). -/
theorem normalizeTextForTTS_clean_markdown_off
    (s : TextProcessingSettings) (t : List Char)
    (h : s.clean_markdown = false) : normalizeTextForTTS s t = t := by
  unfold normalizeTextForTTS
  rw [h]
  rfl

/-- C9 witness: with `clean_markdown := false` (and the other two flags
still set) a markdown-laden text passes through unchanged. -/
theorem normalizeTextForTTS_clean_markdown_off_witness :
    normalizeTextForTTS
      { clean_markdown := false, remove_footnotes := true,
        normalize_whitespace := true }
      ("**bold** [1]   x\n\n\ny".toList) = "**bold** [1]   x\n\n\ny".toList :=
  normalizeTextForTTS_clean_markdown_off _ _ rfl

/-! ## createWavFile (audio-generator.ts, lines 399-430)

`Buffer.writeUInt32LE` / `writeUInt16LE` store little-endian bytes; the
44 header bytes are written contiguously at offsets 0..43 and the PCM
buffer is appended (`Buffer.concat([header, pcmBuffer])`). -/

/-- Little-endian 16-bit encoding (`Buffer.writeUInt16LE`). -/
def u16le (n : Nat) : List Nat :=
  [n % 256, n / 256 % 256]

/-- Little-endian 32-bit encoding (`Buffer.writeUInt32LE`). -/
def u32le (n : Nat) : List Nat :=
  [n % 256, n / 256 % 256, n / 65536 % 256, n / 16777216 % 256]

/-- ASCII bytes of a header tag (`Buffer.write` with latin1/utf8 on
ASCII). -/
def asciiBytes (s : String) : List Nat :=
  s.toList.map Char.toNat

/-- Model of `createWavFile`: the 44-byte RIFF/WAVE header for 16-bit
mono PCM followed by the PCM bytes. -/
def createWavFile (pcmBuffer : List Nat) (sampleRate : Nat) : List Nat :=
  asciiBytes "RIFF" ++ u32le (36 + pcmBuffer.length) ++ asciiBytes "WAVE" ++
    asciiBytes "fmt " ++ u32le 16 ++ u16le 1 ++ u16le 1 ++
    u32le sampleRate ++ u32le (sampleRate * 2) ++ u16le 2 ++ u16le 16 ++
    asciiBytes "data" ++ u32le pcmBuffer.length ++ pcmBuffer

/-- Decode a little-endian 32-bit field at byte offset `off`. -/
def readU32le (l : List Nat) (off : Nat) : Nat :=
  l.getD off 0 + 256 * l.getD (off + 1) 0 + 65536 * l.getD (off + 2) 0 +
    16777216 * l.getD (off + 3) 0

/-- Decode a little-endian 16-bit field at byte offset `off`. -/
def readU16le (l : List Nat) (off : Nat) : Nat :=
  l.getD off 0 + 256 * l.getD (off + 1) 0

theorem readU32le_append (a b : List Nat) (n : Nat) (h : n < 4294967296) :
    readU32le (a ++ (u32le n ++ b)) a.length = n := by
  have h0 : ∀ k : Nat, (a ++ (u32le n ++ b)).getD (a.length + k) 0
      = (u32le n ++ b).getD k 0 := by
    intro k
    rw [List.getD_append_right a (u32le n ++ b) 0 (a.length + k) (by omega)]
    congr 1
    omega
  have ha : (a ++ (u32le n ++ b)).getD a.length 0
      = (u32le n ++ b).getD 0 0 := by
    simpa using h0 0
  unfold readU32le
  rw [ha, h0 1, h0 2, h0 3]
  unfold u32le
  simp only [List.cons_append, List.nil_append, List.getD_cons_zero,
    List.getD_cons_succ]
  omega

theorem readU16le_append (a b : List Nat) (n : Nat) (h : n < 65536) :
    readU16le (a ++ (u16le n ++ b)) a.length = n := by
  have h0 : ∀ k : Nat, (a ++ (u16le n ++ b)).getD (a.length + k) 0
      = (u16le n ++ b).getD k 0 := by
    intro k
    rw [List.getD_append_right a (u16le n ++ b) 0 (a.length + k) (by omega)]
    congr 1
    omega
  have ha : (a ++ (u16le n ++ b)).getD a.length 0
      = (u16le n ++ b).getD 0 0 := by
    simpa using h0 0
  unfold readU16le
  rw [ha, h0 1]
  unfold u16le
  simp only [List.cons_append, List.nil_append, List.getD_cons_zero,
    List.getD_cons_succ]
  omega

theorem readU32le_at (a b : List Nat) (n off : Nat) (ha : a.length = off)
    (h : n < 4294967296) : readU32le (a ++ (u32le n ++ b)) off = n := by
  rw [← ha]
  exact readU32le_append a b n h

theorem readU16le_at (a b : List Nat) (n off : Nat) (ha : a.length = off)
    (h : n < 65536) : readU16le (a ++ (u16le n ++ b)) off = n := by
  rw [← ha]
  exact readU16le_append a b n h

theorem u32le_length (n : Nat) : (u32le n).length = 4 := rfl

theorem u16le_length (n : Nat) : (u16le n).length = 2 := rfl

theorem asciiBytes_length (s : String) :
    (asciiBytes s).length = s.length := by
  unfold asciiBytes
  rw [List.length_map]
  rfl

set_option maxHeartbeats 1000000 in
/-- C3: `createWavFile` prepends a 44-byte header to the PCM bytes in
which the `RIFF` size field is `36 + N`, the `fmt ` chunk size is 16, the
audio-format tag is 1 (PCM), the channel count is 1, the sample rate is
`R`, the byte rate is `2R`, the block align is 2, the bits-per-sample
field is 16, and the `data` chunk size is `N` — for any PCM buffer of `N`
bytes and sample rate `R` in the ranges `Buffer.writeUInt32LE` accepts. -/
theorem createWavFile_header_spec (pcmBuffer : List Nat) (sampleRate : Nat)
    (hN : 36 + pcmBuffer.length < 4294967296)
    (hR : sampleRate * 2 < 4294967296) :
    (createWavFile pcmBuffer sampleRate).length = 44 + pcmBuffer.length ∧
    (createWavFile pcmBuffer sampleRate).drop 44 = pcmBuffer ∧
    (createWavFile pcmBuffer sampleRate).take 4 = asciiBytes "RIFF" ∧
    readU32le (createWavFile pcmBuffer sampleRate) 4
      = 36 + pcmBuffer.length ∧
    ((createWavFile pcmBuffer sampleRate).drop 8).take 4
      = asciiBytes "WAVE" ∧
    ((createWavFile pcmBuffer sampleRate).drop 12).take 4
      = asciiBytes "fmt " ∧
    readU32le (createWavFile pcmBuffer sampleRate) 16 = 16 ∧
    readU16le (createWavFile pcmBuffer sampleRate) 20 = 1 ∧
    readU16le (createWavFile pcmBuffer sampleRate) 22 = 1 ∧
    readU32le (createWavFile pcmBuffer sampleRate) 24 = sampleRate ∧
    readU32le (createWavFile pcmBuffer sampleRate) 28 = sampleRate * 2 ∧
    readU16le (createWavFile pcmBuffer sampleRate) 32 = 2 ∧
    readU16le (createWavFile pcmBuffer sampleRate) 34 = 16 ∧
    ((createWavFile pcmBuffer sampleRate).drop 36).take 4
      = asciiBytes "data" ∧
    readU32le (createWavFile pcmBuffer sampleRate) 40
      = pcmBuffer.length := by
  have h20 : createWavFile pcmBuffer sampleRate =
      (asciiBytes "RIFF" ++ u32le (36 + pcmBuffer.length) ++
        asciiBytes "WAVE" ++ asciiBytes "fmt " ++ u32le 16) ++
      (u16le 1 ++ (u16le 1 ++ u32le sampleRate ++ u32le (sampleRate * 2) ++
        u16le 2 ++ u16le 16 ++ asciiBytes "data" ++
        u32le pcmBuffer.length ++ pcmBuffer)) := by
    unfold createWavFile
    simp only [List.append_assoc]
  have h22 : createWavFile pcmBuffer sampleRate =
      (asciiBytes "RIFF" ++ u32le (36 + pcmBuffer.length) ++
        asciiBytes "WAVE" ++ asciiBytes "fmt " ++ u32le 16 ++ u16le 1) ++
      (u16le 1 ++ (u32le sampleRate ++ u32le (sampleRate * 2) ++
        u16le 2 ++ u16le 16 ++ asciiBytes "data" ++
        u32le pcmBuffer.length ++ pcmBuffer)) := by
    unfold createWavFile
    simp only [List.append_assoc]
  have h24 : createWavFile pcmBuffer sampleRate =
      (asciiBytes "RIFF" ++ u32le (36 + pcmBuffer.length) ++
        asciiBytes "WAVE" ++ asciiBytes "fmt " ++ u32le 16 ++ u16le 1 ++
        u16le 1) ++
      (u32le sampleRate ++ (u32le (sampleRate * 2) ++
        u16le 2 ++ u16le 16 ++ asciiBytes "data" ++
        u32le pcmBuffer.length ++ pcmBuffer)) := by
    unfold createWavFile
    simp only [List.append_assoc]
  have h28 : createWavFile pcmBuffer sampleRate =
      (asciiBytes "RIFF" ++ u32le (36 + pcmBuffer.length) ++
        asciiBytes "WAVE" ++ asciiBytes "fmt " ++ u32le 16 ++ u16le 1 ++
        u16le 1 ++ u32le sampleRate) ++
      (u32le (sampleRate * 2) ++ (u16le 2 ++ u16le 16 ++
        asciiBytes "data" ++ u32le pcmBuffer.length ++ pcmBuffer)) := by
    unfold createWavFile
    simp only [List.append_assoc]
  have h32 : createWavFile pcmBuffer sampleRate =
      (asciiBytes "RIFF" ++ u32le (36 + pcmBuffer.length) ++
        asciiBytes "WAVE" ++ asciiBytes "fmt " ++ u32le 16 ++ u16le 1 ++
        u16le 1 ++ u32le sampleRate ++ u32le (sampleRate * 2)) ++
      (u16le 2 ++ (u16le 16 ++ asciiBytes "data" ++
        u32le pcmBuffer.length ++ pcmBuffer)) := by
    unfold createWavFile
    simp only [List.append_assoc]
  have h34 : createWavFile pcmBuffer sampleRate =
      (asciiBytes "RIFF" ++ u32le (36 + pcmBuffer.length) ++
        asciiBytes "WAVE" ++ asciiBytes "fmt " ++ u32le 16 ++ u16le 1 ++
        u16le 1 ++ u32le sampleRate ++ u32le (sampleRate * 2) ++
        u16le 2) ++
      (u16le 16 ++ (asciiBytes "data" ++
        u32le pcmBuffer.length ++ pcmBuffer)) := by
    unfold createWavFile
    simp only [List.append_assoc]
  have h36 : createWavFile pcmBuffer sampleRate =
      (asciiBytes "RIFF" ++ u32le (36 + pcmBuffer.length) ++
        asciiBytes "WAVE" ++ asciiBytes "fmt " ++ u32le 16 ++ u16le 1 ++
        u16le 1 ++ u32le sampleRate ++ u32le (sampleRate * 2) ++
        u16le 2 ++ u16le 16) ++
      (asciiBytes "data" ++ (u32le pcmBuffer.length ++ pcmBuffer)) := by
    unfold createWavFile
    simp only [List.append_assoc]
  have h40 : createWavFile pcmBuffer sampleRate =
      (asciiBytes "RIFF" ++ u32le (36 + pcmBuffer.length) ++
        asciiBytes "WAVE" ++ asciiBytes "fmt " ++ u32le 16 ++ u16le 1 ++
        u16le 1 ++ u32le sampleRate ++ u32le (sampleRate * 2) ++
        u16le 2 ++ u16le 16 ++ asciiBytes "data") ++
      (u32le pcmBuffer.length ++ pcmBuffer) := by
    unfold createWavFile
    simp only [List.append_assoc]
  have h44 : createWavFile pcmBuffer sampleRate =
      (asciiBytes "RIFF" ++ u32le (36 + pcmBuffer.length) ++
        asciiBytes "WAVE" ++ asciiBytes "fmt " ++ u32le 16 ++ u16le 1 ++
        u16le 1 ++ u32le sampleRate ++ u32le (sampleRate * 2) ++
        u16le 2 ++ u16le 16 ++ asciiBytes "data" ++
        u32le pcmBuffer.length) ++ pcmBuffer := by
    unfold createWavFile
    simp only [List.append_assoc]
  have h0 : createWavFile pcmBuffer sampleRate =
      asciiBytes "RIFF" ++
      (u32le (36 + pcmBuffer.length) ++
        (asciiBytes "WAVE" ++ asciiBytes "fmt " ++ u32le 16 ++ u16le 1 ++
          u16le 1 ++ u32le sampleRate ++ u32le (sampleRate * 2) ++
          u16le 2 ++ u16le 16 ++ asciiBytes "data" ++
          u32le pcmBuffer.length ++ pcmBuffer)) := by
    unfold createWavFile
    simp only [List.append_assoc]
  have h8 : createWavFile pcmBuffer sampleRate =
      (asciiBytes "RIFF" ++ u32le (36 + pcmBuffer.length)) ++
      (asciiBytes "WAVE" ++ (asciiBytes "fmt " ++ u32le 16 ++ u16le 1 ++
        u16le 1 ++ u32le sampleRate ++ u32le (sampleRate * 2) ++
        u16le 2 ++ u16le 16 ++ asciiBytes "data" ++
        u32le pcmBuffer.length ++ pcmBuffer)) := by
    unfold createWavFile
    simp only [List.append_assoc]
  have h12 : createWavFile pcmBuffer sampleRate =
      (asciiBytes "RIFF" ++ u32le (36 + pcmBuffer.length) ++
        asciiBytes "WAVE") ++
      (asciiBytes "fmt " ++ (u32le 16 ++ u16le 1 ++
        u16le 1 ++ u32le sampleRate ++ u32le (sampleRate * 2) ++
        u16le 2 ++ u16le 16 ++ asciiBytes "data" ++
        u32le pcmBuffer.length ++ pcmBuffer)) := by
    unfold createWavFile
    simp only [List.append_assoc]
  have h16 : createWavFile pcmBuffer sampleRate =
      (asciiBytes "RIFF" ++ u32le (36 + pcmBuffer.length) ++
        asciiBytes "WAVE" ++ asciiBytes "fmt ") ++
      (u32le 16 ++ (u16le 1 ++
        u16le 1 ++ u32le sampleRate ++ u32le (sampleRate * 2) ++
        u16le 2 ++ u16le 16 ++ asciiBytes "data" ++
        u32le pcmBuffer.length ++ pcmBuffer)) := by
    unfold createWavFile
    simp only [List.append_assoc]
  refine ⟨?_, ?_, ?_, ?_, ?_, ?_, ?_, ?_, ?_, ?_, ?_, ?_, ?_, ?_, ?_⟩
  · rw [h44, List.length_append]
    have : (asciiBytes "RIFF" ++ u32le (36 + pcmBuffer.length) ++
        asciiBytes "WAVE" ++ asciiBytes "fmt " ++ u32le 16 ++ u16le 1 ++
        u16le 1 ++ u32le sampleRate ++ u32le (sampleRate * 2) ++
        u16le 2 ++ u16le 16 ++ asciiBytes "data" ++
        u32le pcmBuffer.length).length = 44 := by
      simp only [List.length_append, u32le_length, u16le_length,
        asciiBytes_length]
      decide
    omega
  · rw [h44]
    apply List.drop_left'
    simp only [List.length_append, u32le_length, u16le_length,
      asciiBytes_length]
    decide
  · rw [h0]
    exact List.take_left' (by rw [asciiBytes_length]; decide)
  · rw [h0]
    exact readU32le_at _ _ _ 4 (by rw [asciiBytes_length]; decide)
      (by omega)
  · rw [h8, List.drop_left' (by
      simp only [List.length_append, u32le_length, asciiBytes_length]
      decide)]
    apply List.take_left'
    rw [asciiBytes_length]
    decide
  · rw [h12, List.drop_left' (by
      simp only [List.length_append, u32le_length, asciiBytes_length]
      decide)]
    apply List.take_left'
    rw [asciiBytes_length]
    decide
  · rw [h16]
    exact readU32le_at _ _ _ 16 (by
      simp only [List.length_append, u32le_length, asciiBytes_length]
      decide) (by omega)
  · rw [h20]
    exact readU16le_at _ _ _ 20 (by
      simp only [List.length_append, u32le_length, asciiBytes_length]
      decide) (by omega)
  · rw [h22]
    exact readU16le_at _ _ _ 22 (by
      simp only [List.length_append, u32le_length, u16le_length,
        asciiBytes_length]
      decide) (by omega)
  · rw [h24]
    exact readU32le_at _ _ _ 24 (by
      simp only [List.length_append, u32le_length, u16le_length,
        asciiBytes_length]
      decide) (by omega)
  · rw [h28]
    exact readU32le_at _ _ _ 28 (by
      simp only [List.length_append, u32le_length, u16le_length,
        asciiBytes_length]
      decide) (by omega)
  · rw [h32]
    exact readU16le_at _ _ _ 32 (by
      simp only [List.length_append, u32le_length, u16le_length,
        asciiBytes_length]
      decide) (by omega)
  · rw [h34]
    exact readU16le_at _ _ _ 34 (by
      simp only [List.length_append, u32le_length, u16le_length,
        asciiBytes_length]
      decide) (by omega)
  · rw [h36, List.drop_left' (by
      simp only [List.length_append, u32le_length, u16le_length,
        asciiBytes_length]
      decide)]
    apply List.take_left'
    rw [asciiBytes_length]
    decide
  · rw [h40]
    exact readU32le_at _ _ _ 40 (by
      simp only [List.length_append, u32le_length, u16le_length,
        asciiBytes_length]
      decide) (by omega)

/-- C3 witness: the header specification evaluated on a concrete 4-byte
PCM buffer at 24000 Hz. -/
theorem createWavFile_header_spec_witness :
    (createWavFile [10, 20, 30, 40] 24000).length = 44 + 4 ∧
    (createWavFile [10, 20, 30, 40] 24000).drop 44 = [10, 20, 30, 40] ∧
    (createWavFile [10, 20, 30, 40] 24000).take 4 = asciiBytes "RIFF" ∧
    readU32le (createWavFile [10, 20, 30, 40] 24000) 4 = 36 + 4 ∧
    ((createWavFile [10, 20, 30, 40] 24000).drop 8).take 4
      = asciiBytes "WAVE" ∧
    ((createWavFile [10, 20, 30, 40] 24000).drop 12).take 4
      = asciiBytes "fmt " ∧
    readU32le (createWavFile [10, 20, 30, 40] 24000) 16 = 16 ∧
    readU16le (createWavFile [10, 20, 30, 40] 24000) 20 = 1 ∧
    readU16le (createWavFile [10, 20, 30, 40] 24000) 22 = 1 ∧
    readU32le (createWavFile [10, 20, 30, 40] 24000) 24 = 24000 ∧
    readU32le (createWavFile [10, 20, 30, 40] 24000) 28 = 24000 * 2 ∧
    readU16le (createWavFile [10, 20, 30, 40] 24000) 32 = 2 ∧
    readU16le (createWavFile [10, 20, 30, 40] 24000) 34 = 16 ∧
    ((createWavFile [10, 20, 30, 40] 24000).drop 36).take 4
      = asciiBytes "data" ∧
    readU32le (createWavFile [10, 20, 30, 40] 24000) 40 = 4 := by
  exact createWavFile_header_spec [10, 20, 30, 40] 24000
    (by decide) (by decide)

/-! ## generateSingleAudio retry loop (audio-generator.ts, lines 433-481)

The provider call of attempt `i` (0-based) is abstracted as an outcome:
success, or a failure classified by the rate-limit test
`error.response.status === 429 || error.message.includes("429") ||
error.message.includes("Too Many Requests")`, carrying an identifier so
that re-raising "the final error" is observable.  Delays are rationals
because `retry_delay / 3` is JavaScript (exact) division. -/

/-- Outcome of one provider attempt. -/
inductive AttemptOutcome where
  | ok : AttemptOutcome
  | failure (rateLimit : Bool) (errId : Nat) : AttemptOutcome
deriving DecidableEq

/-- The `while (retries <= maxRetries)` loop of `generateSingleAudio`:
`r` is the current value of `retries` (also the 0-based index of the next
attempt), and the fuel `maxR + 1 - r` bounds the remaining iterations.
Returns the list of waits performed (in order) and either success or the
re-raised final error. -/
def retryGo (att : Nat → AttemptOutcome) (maxR : Nat) (d : ℚ) :
    Nat → Nat → List ℚ × Except Nat Unit
  | 0, _ => ([], Except.ok ())
  | fuel + 1, r =>
    match att r with
    | AttemptOutcome.ok => ([], Except.ok ())
    | AttemptOutcome.failure rl id =>
      if maxR < r + 1 then ([], Except.error id)
      else
        let baseDelay := if rl then d else d / 3
        let backoffDelay := baseDelay * 2 ^ (r + 1 - 1)
        let rest := retryGo att maxR d fuel (r + 1)
        (backoffDelay :: rest.1, rest.2)

/-- Model of `generateSingleAudio`'s retry behaviour:
`maxR = config.processing.retry_attempts`,
`d = config.processing.retry_delay`. -/
def generateSingleAudio (att : Nat → AttemptOutcome) (maxR : Nat) (d : ℚ) :
    List ℚ × Except Nat Unit :=
  retryGo att maxR d (maxR + 1) 0

theorem retryGo_all_fail (maxR : Nat) (d : ℚ) (rl : Nat → Bool)
    (ids : Nat → Nat) (att : Nat → AttemptOutcome)
    (hatt : ∀ i, att i = AttemptOutcome.failure (rl i) (ids i)) :
    ∀ fuel r, r + fuel = maxR + 1 → r ≤ maxR →
      retryGo att maxR d fuel r =
        ((List.range' r (maxR - r)).map
            (fun j => (if rl j then d else d / 3) * 2 ^ j),
          Except.error (ids maxR)) := by
  intro fuel
  induction fuel with
  | zero => intro r hr hr2; omega
  | succ f ih =>
    intro r hr hRr
    unfold retryGo
    rw [hatt r]
    simp only
    by_cases hend : maxR < r + 1
    · have hreq : r = maxR := by omega
      rw [if_pos hend, hreq]
      have : maxR - maxR = 0 := by omega
      rw [this]
      rfl
    · rw [if_neg hend]
      have hrec := ih (r + 1) (by omega) (by omega)
      rw [hrec]
      have hrange : List.range' r (maxR - r)
          = r :: List.range' (r + 1) (maxR - (r + 1)) := by
        have : maxR - r = (maxR - (r + 1)) + 1 := by omega
        rw [this, List.range'_succ]
      rw [hrange, List.map_cons]
      simp only [Nat.add_sub_cancel]

/-- C2: with `retry_attempts = 3`, `retry_delay = 1000` and every attempt
failing rate-limited, the waits are `1000*2^0, 1000*2^1, 1000*2^2` and the
error of the 4th failed attempt is re-raised; in general, when every
attempt fails, the wait before retry `k` (1-based, `k ≤ retry_attempts`)
is `base * 2^(k-1)` where `base` is the configured retry delay if failure
`k` was rate-limited and a third of it otherwise, and after the final
attempt (index `retry_attempts`) its error is re-raised, not swallowed. -/
theorem generateSingleAudio_retry_backoff (maxR : Nat) (d : ℚ)
    (rl : Nat → Bool) (ids : Nat → Nat) (att : Nat → AttemptOutcome)
    (hatt : ∀ i, att i = AttemptOutcome.failure (rl i) (ids i)) :
    generateSingleAudio att maxR d =
      ((List.range maxR).map
          (fun j => (if rl j then d else d / 3) * 2 ^ j),
        Except.error (ids maxR)) := by
  unfold generateSingleAudio
  rw [retryGo_all_fail maxR d rl ids att hatt (maxR + 1) 0 (by omega)
    (by omega)]
  rw [List.range_eq_range']
  simp

/-- C2 witness: `retry_attempts = 3`, `retry_delay = 1000`, all four
attempts fail rate-limited with error ids `0,1,2,3`: the waits are
`[1000, 2000, 4000]` and error `3` (the 4th attempt's) is re-raised. -/
theorem generateSingleAudio_retry_backoff_witness :
    generateSingleAudio
        (fun i => AttemptOutcome.failure true i) 3 1000 =
      ([1000, 2000, 4000], Except.error 3) := by
  rw [generateSingleAudio_retry_backoff 3 1000 (fun _ => true)
    (fun i => i) (fun i => AttemptOutcome.failure true i) (fun _ => rfl)]
  norm_num [List.range_succ]

/-! ## findChapter (generate-chapter-audio.ts, lines 130-146) -/

/-- A chapter of the table of contents (config/toc shape used by
`generate-chapter-audio.ts`); titles are kept as character lists. -/
structure Chapter where
  id : String
  title : List Char
  order : Int
  filename : String
deriving DecidableEq

/-- Value of a hexadecimal digit, or `none`. -/
def hexVal (c : Char) : Option Nat :=
  if '0' ≤ c ∧ c ≤ '9' then some (c.toNat - 48)
  else if 'a' ≤ c ∧ c ≤ 'f' then some (c.toNat - 87)
  else if 'A' ≤ c ∧ c ≤ 'F' then some (c.toNat - 55)
  else none

/-- Whether `c` is a digit valid in base `base` (10 or 16). -/
def digitInBase (base : Nat) (c : Char) : Bool :=
  match hexVal c with
  | some v => v < base
  | none => false

/-- Accumulate digit values most-significant first. -/
def digitsToNat (base : Nat) (l : List Nat) : Nat :=
  l.foldl (fun acc d => acc * base + d) 0

/-- Model of JavaScript `parseInt(s)` (radix argument omitted): skip
leading whitespace, optional sign, optional `0x`/`0X` prefix selecting
base 16, then the maximal run of digits; `none` models `NaN` (no digits).
Parsing stops at the first invalid character. -/
def parseIntJS (s : List Char) : Option Int :=
  let s1 := s.dropWhile Char.isWhitespace
  let signAndRest : Int × List Char :=
    match s1 with
    | '-' :: r => (-1, r)
    | '+' :: r => (1, r)
    | _ => (1, s1)
  let baseAndRest : Nat × List Char :=
    match signAndRest.2 with
    | '0' :: 'x' :: r => (16, r)
    | '0' :: 'X' :: r => (16, r)
    | _ => (10, signAndRest.2)
  let ds := baseAndRest.2.takeWhile (digitInBase baseAndRest.1)
  if ds.isEmpty then none
  else some (signAndRest.1 *
    (digitsToNat baseAndRest.1 (ds.filterMap hexVal) : Int))

/-- ASCII lowercasing, the relevant fragment of JavaScript
`String.prototype.toLowerCase` (all identifiers and titles considered
here are ASCII). -/
def asciiLower (c : Char) : Char :=
  if 'A' ≤ c ∧ c ≤ 'Z' then Char.ofNat (c.toNat + 32) else c

/-- Model of JavaScript `hay.includes(pat)`: `pat` occurs as a contiguous
substring of `hay`. -/
def strIncludes (pat : List Char) : List Char → Bool
  | [] => pat.isEmpty
  | c :: t => pat.isPrefixOf (c :: t) || strIncludes pat t

/-- Whether a chapter title contains the identifier, case-insensitively
(`ch.title.toLowerCase().includes(identifier.toLowerCase())`). -/
def titleMatches (identifier : List Char) (ch : Chapter) : Bool :=
  strIncludes (identifier.map asciiLower) (ch.title.map asciiLower)

/-- Model of `findChapter` (generate-chapter-audio.ts lines 130-146):
if the identifier parses as an integer, look up by `order`; otherwise
first case-insensitive title substring match; `none` models `null`. -/
def findChapter (chapters : List Chapter) (identifier : List Char) :
    Option Chapter :=
  match parseIntJS identifier with
  | some chapterNum => chapters.find? (fun ch => ch.order = chapterNum)
  | none => chapters.find? (fun ch => titleMatches identifier ch)

/-- C5: `"10"` resolves by order (to the chapter with order 10, when
orders are unique), `"chaos"` resolves to the first chapter whose title
contains `"chaos"` case-insensitively, and `"zzz-nonexistent"` resolves
to `none` rather than an error when no title contains it. -/
theorem findChapter_resolution (chapters : List Chapter) :
    (∀ ch ∈ chapters, ch.order = 10 →
      (∀ ch2 ∈ chapters, ch2.order = 10 → ch2 = ch) →
      findChapter chapters ("10".toList) = some ch) ∧
    findChapter chapters ("chaos".toList) =
      chapters.find? (fun ch => titleMatches ("chaos".toList) ch) ∧
    ((∀ ch ∈ chapters, titleMatches ("zzz-nonexistent".toList) ch = false) →
      findChapter chapters ("zzz-nonexistent".toList) = none) := by
  refine ⟨?_, ?_, ?_⟩
  · intro ch hmem hord huniq
    have hparse : parseIntJS ("10".toList) = some 10 := by decide
    unfold findChapter
    rw [hparse]
    show List.find? (fun c => c.order = (10 : Int)) chapters = some ch
    induction chapters with
    | nil => simp at hmem
    | cons a l ih =>
      by_cases ha : a.order = (10 : Int)
      · rw [List.find?_cons_of_pos _ (by simpa using ha)]
        have := huniq a (List.mem_cons_self a l) ha
        rw [this]
      · rw [List.find?_cons_of_neg _ (by simpa using ha)]
        rcases List.mem_cons.mp hmem with h | h
        · exact absurd (h ▸ hord) ha
        · exact ih h (fun ch2 hm2 => huniq ch2 (List.mem_cons_of_mem a hm2))
  · have hparse : parseIntJS ("chaos".toList) = none := by decide
    unfold findChapter
    rw [hparse]
  · intro hnone
    have hparse : parseIntJS ("zzz-nonexistent".toList) = none := by decide
    unfold findChapter
    rw [hparse]
    show List.find? (fun c => titleMatches ("zzz-nonexistent".toList) c)
      chapters = none
    rw [List.find?_eq_none]
    intro ch hm
    rw [hnone ch hm]
    exact Bool.false_ne_true

/-- C5 witness: a concrete 3-chapter table of contents exercising all
three resolutions. -/
theorem findChapter_resolution_witness :
    (findChapter
        [⟨"c1", "Out of Chaos".toList, 1, "01.md"⟩,
         ⟨"c2", "The Titans".toList, 2, "02.md"⟩,
         ⟨"c10", "The Flood".toList, 10, "10.md"⟩] ("10".toList) =
      some ⟨"c10", "The Flood".toList, 10, "10.md"⟩) ∧
    (findChapter
        [⟨"c1", "Out of Chaos".toList, 1, "01.md"⟩,
         ⟨"c2", "The Titans".toList, 2, "02.md"⟩,
         ⟨"c10", "The Flood".toList, 10, "10.md"⟩] ("chaos".toList) =
      some ⟨"c1", "Out of Chaos".toList, 1, "01.md"⟩) ∧
    (findChapter
        [⟨"c1", "Out of Chaos".toList, 1, "01.md"⟩,
         ⟨"c2", "The Titans".toList, 2, "02.md"⟩,
         ⟨"c10", "The Flood".toList, 10, "10.md"⟩]
        ("zzz-nonexistent".toList) = none) := by
  have h := findChapter_resolution
    [⟨"c1", "Out of Chaos".toList, 1, "01.md"⟩,
     ⟨"c2", "The Titans".toList, 2, "02.md"⟩,
     ⟨"c10", "The Flood".toList, 10, "10.md"⟩]
  refine ⟨?_, ?_, ?_⟩
  · exact h.1 ⟨"c10", "The Flood".toList, 10, "10.md"⟩ (by simp)
      (by decide) (by decide)
  · rw [h.2.1]
    decide
  · exact h.2.2 (by decide)

/-- C10: whenever the identifier's leading characters parse under
`parseInt` (e.g. `"3 little pigs"` parses as 3), `findChapter` resolves
exclusively by order and never falls back to title matching: it returns
the first chapter of that order, and `none` when no chapter has that
order, even if some title contains the identifier. -/
theorem findChapter_numeric_no_title_fallback (chapters : List Chapter)
    (identifier : List Char) (n : Int)
    (hparse : parseIntJS identifier = some n) :
    findChapter chapters identifier =
      chapters.find? (fun ch => ch.order = n) ∧
    ((∀ ch ∈ chapters, ch.order ≠ n) →
      findChapter chapters identifier = none) := by
  constructor
  · unfold findChapter
    rw [hparse]
  · intro hnone
    unfold findChapter
    rw [hparse, List.find?_eq_none]
    intro ch hm
    simpa using hnone ch hm

/-- C10 witness: `"3 little pigs"` parses as 3; with a sole chapter
titled `"3 little pigs"` but of order 7, the lookup returns `none`
instead of matching the title. -/
theorem findChapter_numeric_no_title_fallback_witness :
    (findChapter [⟨"c7", "3 little pigs".toList, 7, "07.md"⟩]
        ("3 little pigs".toList) =
      List.find? (fun ch => ch.order = (3 : Int))
        [⟨"c7", "3 little pigs".toList, 7, "07.md"⟩]) ∧
    ((∀ ch ∈ [(⟨"c7", "3 little pigs".toList, 7, "07.md"⟩ : Chapter)],
        ch.order ≠ (3 : Int)) →
      findChapter [⟨"c7", "3 little pigs".toList, 7, "07.md"⟩]
        ("3 little pigs".toList) = none) :=
  findChapter_numeric_no_title_fallback
    [⟨"c7", "3 little pigs".toList, 7, "07.md"⟩]
    ("3 little pigs".toList) 3 (by decide)

/-! ## ConfigManager.getEffectiveOptions (config-manager.ts, lines
634-650) with the provider registry (config-manager.ts lines 444-447 and
config/providers/google.ts, config/providers/openai.ts)

`options.field || fallback` is JavaScript: an *absent* field
(`undefined`) falls back, but so does any supplied falsy value — the
empty string for the string fields and `0` for the numeric fields. -/

/-- The `default_settings` block of a provider configuration. -/
structure DefaultSettings where
  voice : String
  model : String
  format : String
deriving DecidableEq

/-- The `processing` block of a provider configuration
(`ProcessingLimits` in config/types.ts). -/
structure ProcessingLimits where
  max_text_length : Nat
  max_chunk_size : Nat
  rate_limit_delay : Nat
  max_concurrent_requests : Nat
  retry_attempts : Nat
  retry_delay : Nat
deriving DecidableEq

/-- The fragment of `TTSProviderConfig` that `getEffectiveOptions`
reads. -/
structure TTSProviderConfig where
  default_settings : DefaultSettings
  processing : ProcessingLimits
deriving DecidableEq

/-- `googleTTSConfig` (config/providers/google.ts): the
`default_settings` and `processing` values. -/
def googleTTSConfig : TTSProviderConfig :=
  { default_settings :=
      { voice := "Kore", model := "gemini-2.5-flash-preview-tts",
        format := "audio/wav" }
    processing :=
      { max_text_length := 5000, max_chunk_size := 3000,
        rate_limit_delay := 10000, max_concurrent_requests := 1,
        retry_attempts := 5, retry_delay := 30000 } }

/-- `openaiTTSConfig` (config/providers/openai.ts): the
`default_settings` and `processing` values. -/
def openaiTTSConfig : TTSProviderConfig :=
  { default_settings :=
      { voice := "alloy", model := "tts-1", format := "mp3" }
    processing :=
      { max_text_length := 4096, max_chunk_size := 3000,
        rate_limit_delay := 1000, max_concurrent_requests := 5,
        retry_attempts := 3, retry_delay := 2000 } }

/-- The provider registry `ConfigManager.providers`. -/
def providers : List (String × TTSProviderConfig) :=
  [("google", googleTTSConfig), ("openai", openaiTTSConfig)]

/-- `ConfigManager.getProviderConfig`; `none` models the thrown
`Provider not found` error. -/
def getProviderConfig (provider : String) : Option TTSProviderConfig :=
  providers.lookup provider

/-- `ChapterAudioOptions` (config/types.ts): every field optional;
`none` models an absent (`undefined`) field. -/
structure ChapterAudioOptions where
  provider : Option String := none
  voice : Option String := none
  model : Option String := none
  format : Option String := none
  force_regenerate : Option Bool := none
  chunk_size : Option Nat := none
  rate_limit_delay : Option Nat := none
deriving DecidableEq

/-- The resolved `Required<ChapterAudioOptions>`. -/
structure EffectiveOptions where
  provider : String
  voice : String
  model : String
  format : String
  force_regenerate : Bool
  chunk_size : Nat
  rate_limit_delay : Nat
deriving DecidableEq

/-- JavaScript `opt || fallback` on an optional string: `undefined` and
the falsy `""` both fall back. -/
def orElseStr : Option String → String → String
  | some v, fallback => if v = "" then fallback else v
  | none, fallback => fallback

/-- JavaScript `opt || fallback` on an optional number (falsy `0` falls
back; the NaN case does not arise for these fields). -/
def orElseNat : Option Nat → Nat → Nat
  | some v, fallback => if v = 0 then fallback else v
  | none, fallback => fallback

/-- JavaScript `opt || false` on an optional boolean. -/
def orElseFalse : Option Bool → Bool
  | some b => b
  | none => false

/-- Model of `ConfigManager.getEffectiveOptions`. -/
def getEffectiveOptions (provider : String)
    (options : ChapterAudioOptions) : Option EffectiveOptions :=
  (getProviderConfig provider).map fun config =>
    { provider := orElseStr options.provider provider
      voice := orElseStr options.voice config.default_settings.voice
      model := orElseStr options.model config.default_settings.model
      format := orElseStr options.format config.default_settings.format
      force_regenerate := orElseFalse options.force_regenerate
      chunk_size := orElseNat options.chunk_size
        config.processing.max_chunk_size
      rate_limit_delay := orElseNat options.rate_limit_delay
        config.processing.rate_limit_delay }

/-- C6 counterexample: a field supplied in the overrides is *not* always
used as given — the explicitly supplied empty-string voice is falsy, so
`options.voice || config.default_settings.voice` replaces it with the
provider default `"Kore"`. -/
theorem getEffectiveOptions_ignores_falsy_override :
    (getEffectiveOptions "google"
        { voice := some "" }).map EffectiveOptions.voice ≠ some "" := by
  decide

/-- C6 (amended): for every registered provider, each field missing from
the overrides takes the provider's declared default (voice, model and
format from `default_settings`, chunk size from
`processing.max_chunk_size`, rate-limit delay from
`processing.rate_limit_delay`, force-regenerate false), and each field
supplied with a *truthy* value is used as given; a supplied falsy value
(empty string, zero) falls back to the default as well. -/
theorem getEffectiveOptions_spec (provider : String)
    (config : TTSProviderConfig) (options : ChapterAudioOptions)
    (hconfig : getProviderConfig provider = some config) :
    ∃ eff, getEffectiveOptions provider options = some eff ∧
      (options.voice = none → eff.voice = config.default_settings.voice) ∧
      (∀ v, options.voice = some v → v ≠ "" → eff.voice = v) ∧
      (options.model = none → eff.model = config.default_settings.model) ∧
      (∀ v, options.model = some v → v ≠ "" → eff.model = v) ∧
      (options.format = none →
        eff.format = config.default_settings.format) ∧
      (∀ v, options.format = some v → v ≠ "" → eff.format = v) ∧
      (options.chunk_size = none →
        eff.chunk_size = config.processing.max_chunk_size) ∧
      (∀ v, options.chunk_size = some v → v ≠ 0 → eff.chunk_size = v) ∧
      (options.rate_limit_delay = none →
        eff.rate_limit_delay = config.processing.rate_limit_delay) ∧
      (∀ v, options.rate_limit_delay = some v → v ≠ 0 →
        eff.rate_limit_delay = v) ∧
      (options.force_regenerate = none → eff.force_regenerate = false) ∧
      (∀ b, options.force_regenerate = some b →
        eff.force_regenerate = b) := by
  refine ⟨_, by rw [getEffectiveOptions, hconfig, Option.map_some'], ?_⟩
  refine ⟨?_, ?_, ?_, ?_, ?_, ?_, ?_, ?_, ?_, ?_, ?_, ?_⟩
  · intro h; rw [h]; rfl
  · intro v h hne; rw [h]; simp [orElseStr, hne]
  · intro h; rw [h]; rfl
  · intro v h hne; rw [h]; simp [orElseStr, hne]
  · intro h; rw [h]; rfl
  · intro v h hne; rw [h]; simp [orElseStr, hne]
  · intro h; rw [h]; rfl
  · intro v h hne; rw [h]; simp [orElseNat, hne]
  · intro h; rw [h]; rfl
  · intro v h hne; rw [h]; simp [orElseNat, hne]
  · intro h; rw [h]; rfl
  · intro b h; rw [h]; rfl

/-- C6 witness: for the registered google provider with overrides
supplying only a truthy voice `"Puck"` and chunk size 2000, the voice and
chunk size are taken as given while the model keeps the google
default. -/
theorem getEffectiveOptions_spec_witness :
    ∃ eff, getEffectiveOptions "google"
        { voice := some "Puck", chunk_size := some 2000 } = some eff ∧
      eff.voice = "Puck" ∧ eff.chunk_size = 2000 ∧
      eff.model = "gemini-2.5-flash-preview-tts" := by
  obtain ⟨eff, heq, hv⟩ := getEffectiveOptions_spec "google"
    googleTTSConfig { voice := some "Puck", chunk_size := some 2000 }
    (by decide)
  exact ⟨eff, heq, hv.2.1 "Puck" rfl (by decide),
    hv.2.2.2.2.2.2.2.1 2000 rfl (by decide), hv.2.2.1 rfl⟩

/-! ## generateMultipleChapters (generate-chapter-audio.ts, lines
250-286)

The per-identifier work (`generateChapterAudio`, whose failures the
`catch` swallows after logging) is abstracted as a function
`run : String → Except String Unit`.  The console output of the loop is
modelled as an event trace; `tallyReport` is an event vocabulary item the
code never emits (there is no aggregate success/failure report in this
function — the only such tally in the repository is in batch-process.ts,
which counts *books*, not chapters). -/

/-- One console event of the multi-chapter loop. -/
inductive BatchEvent where
  | processing (idx total : Nat) (identifier : String) : BatchEvent
  | chapterFailed (identifier : String) : BatchEvent
  | waiting : BatchEvent
  | completed : BatchEvent
  | tallyReport (successes failures : Nat) : BatchEvent
deriving DecidableEq

/-- The `for` loop of `generateMultipleChapters`: returns the event trace
and the list of identifiers whose generation succeeded (those for which
an output file was produced). -/
def batchGo (run : String → Except String Unit) (total : Nat) :
    Nat → List String → List BatchEvent × List String
  | _, [] => ([BatchEvent.completed], [])
  | i, identifier :: rest =>
    match run identifier with
    | Except.ok _ =>
      let tail := batchGo run total (i + 1) rest
      (BatchEvent.processing (i + 1) total identifier ::
        ((if rest.isEmpty then [] else [BatchEvent.waiting]) ++ tail.1),
        identifier :: tail.2)
    | Except.error _ =>
      let tail := batchGo run total (i + 1) rest
      (BatchEvent.processing (i + 1) total identifier ::
        BatchEvent.chapterFailed identifier :: tail.1,
        tail.2)

/-- Model of `generateMultipleChapters`. -/
def generateMultipleChapters (run : String → Except String Unit)
    (identifiers : List String) : List BatchEvent × List String :=
  batchGo run identifiers.length 0 identifiers

/-- Whether a per-identifier run succeeded. -/
def runOk (e : Except String Unit) : Bool :=
  match e with
  | Except.ok _ => true
  | Except.error _ => false

/-- Recognizer for `processing` events. -/
def isProcessingEvent : BatchEvent → Bool
  | BatchEvent.processing _ _ _ => true
  | _ => false

/-- Recognizer for `chapterFailed` events. -/
def isFailureEvent : BatchEvent → Bool
  | BatchEvent.chapterFailed _ => true
  | _ => false

theorem batchGo_spec (run : String → Except String Unit) (total : Nat) :
    ∀ (idents : List String) (i : Nat),
      (batchGo run total i idents).2 =
        idents.filter (fun s => runOk (run s)) ∧
      (batchGo run total i idents).1.filter isProcessingEvent =
        (idents.enumFrom i).map
          (fun p => BatchEvent.processing (p.1 + 1) total p.2) ∧
      (batchGo run total i idents).1.filter isFailureEvent =
        (idents.filter (fun s => !runOk (run s))).map
          BatchEvent.chapterFailed ∧
      BatchEvent.completed ∈ (batchGo run total i idents).1 ∧
      ∀ s f, BatchEvent.tallyReport s f ∉ (batchGo run total i idents).1 := by
  intro idents
  induction idents with
  | nil =>
    intro i
    refine ⟨rfl, rfl, rfl, by simp [batchGo], ?_⟩
    intro s f hmem
    simp [batchGo] at hmem
  | cons a rest ih =>
    intro i
    obtain ⟨ih1, ih2, ih3, ih4, ih5⟩ := ih (i + 1)
    unfold batchGo
    cases hrun : run a with
    | ok u =>
      simp only
      refine ⟨?_, ?_, ?_, ?_, ?_⟩
      · simp [List.filter_cons, runOk, hrun, ih1]
      · cases hre : rest.isEmpty <;>
          simp [hre, List.filter_cons, List.filter_append,
            isProcessingEvent, ih2, List.enumFrom_cons]
      · cases hre : rest.isEmpty <;>
          simp [hre, List.filter_cons, List.filter_append,
            isProcessingEvent, isFailureEvent, ih3, runOk, hrun]
      · cases hre : rest.isEmpty <;> simp [hre, ih4]
      · intro s f hmem
        simp only [List.mem_cons, List.mem_append] at hmem
        rcases hmem with h | h
        · cases h
        · rcases h with h | h
          · cases hre : rest.isEmpty <;> rw [hre] at h <;> simp at h
          · exact ih5 s f h
    | error err =>
      simp only
      refine ⟨?_, ?_, ?_, ?_, ?_⟩
      · simp [List.filter_cons, runOk, hrun, ih1]
      · simp [List.filter_cons, isProcessingEvent, isFailureEvent, ih2,
          List.enumFrom_cons]
      · simp [List.filter_cons, isProcessingEvent, isFailureEvent, ih3,
          runOk, hrun]
      · simp only [List.mem_cons]
        right
        right
        exact ih4
      · intro s f hmem
        simp only [List.mem_cons] at hmem
        rcases hmem with h | h | h
        · cases h
        · cases h
        · exact ih5 s f h

/-- C7 counterexample: in the concrete scenario — identifiers
`["1","2","3"]` with chapter 2 failing permanently — the run's event
trace never contains an aggregate tally of 2 successes and 1 failure (nor
any tally at all): `generateMultipleChapters` only logs the per-chapter
failure and a plain completion message.  The claimed aggregate report
does not exist in this function. -/
theorem generateMultipleChapters_no_tally :
    BatchEvent.tallyReport 2 1 ∉
      (generateMultipleChapters
          (fun s => if s = "2" then Except.error "synthesis failed"
            else Except.ok ())
          ["1", "2", "3"]).1 := by
  decide

/-- C7 (amended): `generateMultipleChapters` processes the identifiers
strictly in the order given (the `processing` events carry consecutive
1-based indices in input order), a failure is logged as a `chapterFailed`
event and does not abort later identifiers, the identifiers with output
produced are exactly those whose run succeeded, and a completion message
is printed — but no aggregate success/failure tally is reported. -/
theorem generateMultipleChapters_spec
    (run : String → Except String Unit) (identifiers : List String) :
    (generateMultipleChapters run identifiers).2 =
      identifiers.filter (fun s => runOk (run s)) ∧
    (generateMultipleChapters run identifiers).1.filter
        isProcessingEvent =
      (identifiers.enumFrom 0).map
        (fun p => BatchEvent.processing (p.1 + 1) identifiers.length p.2) ∧
    (generateMultipleChapters run identifiers).1.filter isFailureEvent =
      (identifiers.filter (fun s => !runOk (run s))).map
        BatchEvent.chapterFailed ∧
    BatchEvent.completed ∈ (generateMultipleChapters run identifiers).1 ∧
    ∀ s f, BatchEvent.tallyReport s f ∉
      (generateMultipleChapters run identifiers).1 :=
  batchGo_spec run identifiers.length identifiers 0

end BooksRepo
